import Mathlib

/-!
Verification of the task-management data-access layer and its route-level
authorization rules, shallowly embedded from the TypeScript sources
(`shared/schema.ts`, `server/storage.ts`, and the Express route registration).

The relational store is modelled as lists of rows; `serial` primary keys are
modelled by per-table counters. SQL behaviour relevant to the embedded
queries (WHERE with AND/OR, ILIKE pattern matching, ORDER BY ... DESC,
RETURNING, ON DELETE CASCADE) is modelled explicitly.
-/

namespace TodoApp

/-- `task_status` enum from schema.ts: todo | inprogress | completed. -/
inductive TaskStatus where
  | todo
  | inprogress
  | completed
deriving DecidableEq, Repr

/-- `task_priority` enum from schema.ts: low | medium | high. -/
inductive TaskPriority where
  | low
  | medium
  | high
deriving DecidableEq, Repr

/-- `share_permission` enum from schema.ts: view | edit. -/
inductive SharePermission where
  | view
  | edit
deriving DecidableEq, Repr

/-- A row of the `users` table (schema.ts). Timestamps are modelled as `Nat`. -/
structure User where
  id : Nat
  firebaseUid : String
  email : String
  displayName : Option String
  createdAt : Nat
deriving DecidableEq, Repr

/-- A row of the `tasks` table (schema.ts). `description` and `dueDate` are
nullable columns, hence `Option`. -/
structure Task where
  id : Nat
  title : String
  description : Option String
  status : TaskStatus
  priority : TaskPriority
  dueDate : Option Nat
  createdAt : Nat
  updatedAt : Nat
  ownerId : Nat
deriving DecidableEq, Repr

/-- A row of the `task_shares` table (schema.ts). The `taskId` column is
declared with `onDelete: "cascade"` against `tasks.id`. -/
structure TaskShare where
  id : Nat
  taskId : Nat
  sharedWithId : Nat
  permission : SharePermission
  createdAt : Nat
deriving DecidableEq, Repr

/-- The database state: the three tables plus the `serial` counters that
assign fresh primary keys. -/
structure DB where
  users : List User
  tasks : List Task
  taskShares : List TaskShare
  nextUserId : Nat
  nextTaskId : Nat
  nextShareId : Nat
deriving DecidableEq, Repr

/-- A share joined with its recipient user, as produced by the
`leftJoin(users, eq(taskShares.sharedWithId, users.id))` queries. -/
structure ShareWithUser where
  share : TaskShare
  sharedWith : User
deriving DecidableEq, Repr

/-- `TaskWithOwner` from schema.ts: a task together with its owner row and
its share list (each share joined with the recipient). -/
structure TaskWithOwner where
  task : Task
  owner : User
  shares : List ShareWithUser
deriving DecidableEq, Repr

/-- `InsertUser` (insertUserSchema: users minus id and createdAt). -/
structure InsertUser where
  firebaseUid : String
  email : String
  displayName : Option String
deriving DecidableEq, Repr

/-- `InsertTask` (insertTaskSchema: tasks minus id and the timestamps). -/
structure InsertTask where
  title : String
  description : Option String
  status : TaskStatus
  priority : TaskPriority
  dueDate : Option Nat
  ownerId : Nat
deriving DecidableEq, Repr

/-- `UpdateTask` (updateTaskSchema = insertTaskSchema.partial().omit ownerId):
every updatable column is optional, and there is no `ownerId` field at all.
A present `description`/`dueDate` patch may itself set the column to null,
hence the nested `Option`. -/
structure UpdateTask where
  title : Option String
  description : Option (Option String)
  status : Option TaskStatus
  priority : Option TaskPriority
  dueDate : Option (Option Nat)
deriving DecidableEq, Repr

/-- `InsertTaskShare` (insertTaskShareSchema: task_shares minus id/createdAt). -/
structure InsertTaskShare where
  taskId : Nat
  sharedWithId : Nat
  permission : SharePermission
deriving DecidableEq, Repr

/-- `ShareTaskRequest` (shareTaskRequestSchema). -/
structure ShareTaskRequest where
  taskId : Nat
  email : String
  permission : SharePermission
deriving DecidableEq, Repr

/-! ### SQL ILIKE

`getTasksByUserId` filters with `ilike(col, pattern)` where the pattern is
the interpolation of the raw search string between two `%`. Postgres LIKE
patterns treat `%` as "any sequence", `_` as "any single character", and
backslash as the default escape character; ILIKE compares case-insensitively.
A pattern ending in a bare escape character is an error in Postgres; the
model makes it match nothing. -/

/-- All suffixes of a character list, longest first (including the empty
suffix). -/
def listTails : List Char → List (List Char)
  | [] => [[]]
  | c :: cs => (c :: cs) :: listTails cs

/-- Postgres ILIKE matching of a pattern (first argument) against a string,
both as character lists; case-insensitive via `Char.toLower`. A `%` consumes
any suffix, expressed by trying every suffix of the remaining string, which
keeps the recursion structural in the pattern. -/
def likeMatch : List Char → List Char → Bool
  | [], s => s.isEmpty
  | '%' :: p', s => (listTails s).any (fun s' => likeMatch p' s')
  | '_' :: p', s =>
    match s with
    | [] => false
    | _ :: s' => likeMatch p' s'
  | '\\' :: [], _ => false
  | '\\' :: c :: p', s =>
    match s with
    | [] => false
    | c' :: s' => (c.toLower == c'.toLower) && likeMatch p' s'
  | c :: p', s =>
    match s with
    | [] => false
    | c' :: s' => (c.toLower == c'.toLower) && likeMatch p' s'

/-- drizzle's `ilike(column, pattern)` where `column` holds `s`. -/
def ilikeCol (s pattern : String) : Bool :=
  likeMatch pattern.data s.data

/-- The OR-filter of `getTasksByUserId`:
`or(ilike(tasks.title, pat), ilike(tasks.description, pat))` with
`pat = "%" + search + "%"`. An ILIKE against a NULL description is NULL in
SQL, which the OR treats as not-matched. -/
def matchesSearch (search : String) (t : Task) : Bool :=
  ilikeCol t.title ("%" ++ search ++ "%") ||
    (match t.description with
     | some d => ilikeCol d ("%" ++ search ++ "%")
     | none => false)

/-- JS truthiness of the optional `search` string: `if (search)` is taken
exactly when the string is present and non-empty. -/
def searchTruthy : Option String → Bool
  | none => false
  | some s => !s.isEmpty

/-! ### `ORDER BY key DESC`

SQL's descending order-by, modelled as an insertion sort on a `Nat` key
(structurally recursive, so results evaluate by reduction). SQL guarantees
no particular order among equal keys, and neither does this model beyond
being some reordering. -/

/-- Insert `a` into a list sorted by descending `key`, keeping it sorted. -/
def insertByKeyDesc {α : Type} (key : α → Nat) (a : α) : List α → List α
  | [] => [a]
  | b :: bs => if key b ≤ key a then a :: b :: bs else b :: insertByKeyDesc key a bs

/-- Sort by descending `key` (insertion sort). -/
def sortByKeyDesc {α : Type} (key : α → Nat) : List α → List α
  | [] => []
  | a :: as => insertByKeyDesc key a (sortByKeyDesc key as)

theorem mem_insertByKeyDesc {α : Type} (key : α → Nat) (a x : α) (l : List α) :
    x ∈ insertByKeyDesc key a l ↔ x = a ∨ x ∈ l := by
  induction l with
  | nil => simp [insertByKeyDesc]
  | cons b bs ih =>
    unfold insertByKeyDesc
    by_cases h : key b ≤ key a
    · simp [h]
    · simp only [if_neg h, List.mem_cons, ih]
      tauto

theorem mem_sortByKeyDesc {α : Type} (key : α → Nat) (x : α) (l : List α) :
    x ∈ sortByKeyDesc key l ↔ x ∈ l := by
  induction l with
  | nil => simp [sortByKeyDesc]
  | cons a as ih =>
    unfold sortByKeyDesc
    rw [mem_insertByKeyDesc, ih, List.mem_cons]

theorem sorted_insertByKeyDesc {α : Type} (key : α → Nat) (a : α) (l : List α)
    (h : l.Pairwise (fun x y => key y ≤ key x)) :
    (insertByKeyDesc key a l).Pairwise (fun x y => key y ≤ key x) := by
  induction l with
  | nil => simp [insertByKeyDesc]
  | cons b bs ih =>
    unfold insertByKeyDesc
    rcases List.pairwise_cons.mp h with ⟨hb, hbs⟩
    by_cases hk : key b ≤ key a
    · rw [if_pos hk]
      refine List.pairwise_cons.mpr ⟨?_, h⟩
      intro y hy
      rcases List.mem_cons.mp hy with rfl | hy
      · exact hk
      · exact Nat.le_trans (hb y hy) hk
    · rw [if_neg hk]
      refine List.pairwise_cons.mpr ⟨?_, ih hbs⟩
      intro y hy
      rcases (mem_insertByKeyDesc key a y bs).mp hy with rfl | hy
      · exact Nat.le_of_lt (Nat.lt_of_not_le hk)
      · exact hb y hy

theorem sorted_sortByKeyDesc {α : Type} (key : α → Nat) (l : List α) :
    (sortByKeyDesc key l).Pairwise (fun x y => key y ≤ key x) := by
  induction l with
  | nil => simp [sortByKeyDesc]
  | cons a as ih => exact sorted_insertByKeyDesc key a _ ih

/-! ### Storage layer (`server/storage.ts`, class DatabaseStorage) -/

/-- Placeholder row standing for the unchecked non-null assertion (`row.users!`)
on a left join; under the schema's foreign keys the join never misses, so
this value is never produced by a well-formed state. -/
def userDefault : User :=
  { id := 0, firebaseUid := "", email := "", displayName := none, createdAt := 0 }

/-- Placeholder for `row.tasks!` on a left join, as `userDefault`. -/
def taskDefault : Task :=
  { id := 0, title := "", description := none, status := TaskStatus.todo,
    priority := TaskPriority.medium, dueDate := none, createdAt := 0,
    updatedAt := 0, ownerId := 0 }

/-- The owner row joined via `leftJoin(users, eq(tasks.ownerId, users.id))`. -/
def ownerJoin (db : DB) (t : Task) : User :=
  (db.users.find? (fun u => u.id == t.ownerId)).getD userDefault

/-- The share list of a task, each joined with its recipient:
`select from taskShares leftJoin users where taskShares.taskId = id`. -/
def sharesJoin (db : DB) (taskId : Nat) : List ShareWithUser :=
  (db.taskShares.filter (fun s => s.taskId == taskId)).map
    (fun s =>
      { share := s
        sharedWith := (db.users.find? (fun u => u.id == s.sharedWithId)).getD userDefault })

/-- `DatabaseStorage.getUserByEmail`. -/
def getUserByEmail (db : DB) (email : String) : Option User :=
  db.users.find? (fun u => u.email == email)

/-- `DatabaseStorage.createUser`: insert with a fresh serial id. -/
def createUser (db : DB) (ins : InsertUser) (now : Nat) : DB × User :=
  let u : User :=
    { id := db.nextUserId, firebaseUid := ins.firebaseUid, email := ins.email,
      displayName := ins.displayName, createdAt := now }
  ({ db with users := db.users ++ [u], nextUserId := db.nextUserId + 1 }, u)

/-- `DatabaseStorage.getTaskById`: the task row (WHERE id, LIMIT 1) joined
with its owner, plus its share list. -/
def getTaskById (db : DB) (id : Nat) : Option TaskWithOwner :=
  match db.tasks.find? (fun t => t.id == id) with
  | none => none
  | some t => some { task := t, owner := ownerJoin db t, shares := sharesJoin db t.id }

/-- `DatabaseStorage.getTasksByUserId`: owner-scoped select, with the optional
ILIKE filter chosen by JS truthiness of `search`, ordered by
`desc(tasks.createdAt)`, then each row joined with owner and shares. -/
def getTasksByUserId (db : DB) (userId : Nat) (search : Option String) : List TaskWithOwner :=
  let rows :=
    if searchTruthy search then
      db.tasks.filter (fun t => t.ownerId == userId && matchesSearch (search.getD "") t)
    else
      db.tasks.filter (fun t => t.ownerId == userId)
  let ordered := sortByKeyDesc (fun t => t.createdAt) rows
  ordered.map (fun t => { task := t, owner := ownerJoin db t, shares := sharesJoin db t.id })

/-- `DatabaseStorage.createTask`: insert with a server-assigned serial id,
`createdAt` defaulted by the schema and `updatedAt` set by the code. -/
def createTask (db : DB) (ins : InsertTask) (now : Nat) : DB × Task :=
  let t : Task :=
    { id := db.nextTaskId, title := ins.title, description := ins.description,
      status := ins.status, priority := ins.priority, dueDate := ins.dueDate,
      createdAt := now, updatedAt := now, ownerId := ins.ownerId }
  ({ db with tasks := db.tasks ++ [t], nextTaskId := db.nextTaskId + 1 }, t)

/-- `{ ...updates, updatedAt: new Date() }` applied to one task row: each
present patch field overwrites the column, `updatedAt` is always refreshed,
and there is no `ownerId` field in `UpdateTask` at all. -/
def applyUpdate (u : UpdateTask) (now : Nat) (t : Task) : Task :=
  { t with
    title := u.title.getD t.title
    description := u.description.getD t.description
    status := u.status.getD t.status
    priority := u.priority.getD t.priority
    dueDate := u.dueDate.getD t.dueDate
    updatedAt := now }

/-- `DatabaseStorage.updateTask`:
`UPDATE tasks SET ... WHERE id = id AND ownerId = userId RETURNING *`;
if no row came back, throw `"Task not found or access denied"` (the single
error used both when the task is absent and when the owner differs). -/
def updateTask (db : DB) (id userId : Nat) (u : UpdateTask) (now : Nat) :
    DB × Except String Task :=
  let touched := db.tasks.filter (fun t => t.id == id && t.ownerId == userId)
  let db' :=
    { db with
      tasks := db.tasks.map (fun t =>
        if t.id == id && t.ownerId == userId then applyUpdate u now t else t) }
  match touched with
  | [] => (db', Except.error "Task not found or access denied")
  | t :: _ => (db', Except.ok (applyUpdate u now t))

/-- `DatabaseStorage.deleteTask`:
`DELETE FROM tasks WHERE id = id AND ownerId = userId RETURNING *`, result
`rows.length > 0`. The schema's `onDelete: "cascade"` on
`taskShares.taskId` removes every share row referencing a deleted task. -/
def deleteTask (db : DB) (id userId : Nat) : DB × Bool :=
  let removed := db.tasks.filter (fun t => t.id == id && t.ownerId == userId)
  let db' :=
    { db with
      tasks := db.tasks.filter (fun t => !(t.id == id && t.ownerId == userId))
      taskShares := db.taskShares.filter (fun s => !(removed.any (fun t => t.id == s.taskId))) }
  (db', !removed.isEmpty)

/-- `DatabaseStorage.shareTask`: plain insert of a share row (the storage
layer itself enforces no uniqueness). -/
def shareTask (db : DB) (ins : InsertTaskShare) (now : Nat) : DB × TaskShare :=
  let s : TaskShare :=
    { id := db.nextShareId, taskId := ins.taskId, sharedWithId := ins.sharedWithId,
      permission := ins.permission, createdAt := now }
  ({ db with taskShares := db.taskShares ++ [s], nextShareId := db.nextShareId + 1 }, s)

/-- `DatabaseStorage.getTaskShares`: shares of a task, each joined with the
recipient user. -/
def getTaskShares (db : DB) (taskId : Nat) : List ShareWithUser :=
  sharesJoin db taskId

/-- `DatabaseStorage.removeTaskShare`: delete one share edge, report whether
anything was removed. -/
def removeTaskShare (db : DB) (taskId sharedWithId : Nat) : DB × Bool :=
  let removed := db.taskShares.filter
    (fun s => s.taskId == taskId && s.sharedWithId == sharedWithId)
  let db' :=
    { db with
      taskShares := db.taskShares.filter
        (fun s => !(s.taskId == taskId && s.sharedWithId == sharedWithId)) }
  (db', !removed.isEmpty)

/-- `DatabaseStorage.getUserSharedTasks`: shares pointing at `userId`, joined
with the task and its owner, ordered by `desc(tasks.createdAt)`; the `shares`
sub-list of each returned entry is left empty by the code. -/
def getUserSharedTasks (db : DB) (userId : Nat) : List TaskWithOwner :=
  let rows := db.taskShares.filter (fun s => s.sharedWithId == userId)
  let joined := rows.map (fun s =>
    let t := (db.tasks.find? (fun t => t.id == s.taskId)).getD taskDefault
    ({ task := t, owner := ownerJoin db t, shares := [] } : TaskWithOwner))
  sortByKeyDesc (fun tw => tw.task.createdAt) joined

/-! ### Route handlers (Express `registerRoutes`)

Authentication and `getOrCreateUser` resolve the caller to a local user row;
the handlers below take that resolved user's id. Each handler returns the
HTTP status it answers with, together with its response payload and/or the
database state after the call. -/

/-- `GET /api/tasks/:id`: 404 when the task does not exist; 403 when the
caller neither owns the task nor appears in its share list; 200 with the
task otherwise. -/
def getTaskRoute (db : DB) (userId taskId : Nat) : Nat × Option TaskWithOwner :=
  match getTaskById db taskId with
  | none => (404, none)
  | some task =>
    let hasAccess := task.task.ownerId == userId ||
      task.shares.any (fun sh => sh.share.sharedWithId == userId)
    if hasAccess then (200, some task) else (403, none)

/-- `GET /api/tasks`: `[...ownedTasks, ...sharedTasks]`, the concatenation of
the owner-scoped list (with the optional search) and the shared-to-user list. -/
def listTasksRoute (db : DB) (userId : Nat) (search : Option String) : List TaskWithOwner :=
  getTasksByUserId db userId search ++ getUserSharedTasks db userId

/-- `PUT /api/tasks/:id`: body parsed by updateTaskSchema, then
`storage.updateTask`; the `"Task not found or access denied"` error is
answered with status 404, success with 200. -/
def putTaskRoute (db : DB) (userId taskId : Nat) (updates : UpdateTask) (now : Nat) :
    Nat × DB :=
  match updateTask db taskId userId updates now with
  | (db', Except.ok _) => (200, db')
  | (db', Except.error _) => (404, db')

/-- `DELETE /api/tasks/:id`: `storage.deleteTask`; 204 when a row was
removed, 404 otherwise. -/
def deleteTaskRoute (db : DB) (userId taskId : Nat) : Nat × DB :=
  let r := deleteTask db taskId userId
  (if r.2 then 204 else 404, r.1)

/-- Tail of the `POST /api/tasks/share` handler, after the recipient user has
been resolved: a scan of the task's existing shares rejects a duplicate
(status 400, "Task is already shared with this user") before the insert;
otherwise the share row is inserted and answered with 201. -/
def shareTaskFinish (db1 : DB) (taskId : Nat) (perm : SharePermission)
    (sharedWithUser : User) (now : Nat) : Nat × DB :=
  let existingShares := getTaskShares db1 taskId
  let alreadyShared := existingShares.any
    (fun sh => sh.share.sharedWithId == sharedWithUser.id)
  if alreadyShared then (400, db1)
  else
    let ins := shareTask db1
      { taskId := taskId, sharedWithId := sharedWithUser.id, permission := perm } now
    (201, ins.1)

/-- `POST /api/tasks/share`: requester must own the task (403 otherwise); the
recipient is resolved by email, with a placeholder user provisioned when the
email is unknown; then `shareTaskFinish` performs the duplicate scan and the
insert. -/
def shareTaskRoute (db : DB) (userId : Nat) (req : ShareTaskRequest) (now : Nat) :
    Nat × DB :=
  match getTaskById db req.taskId with
  | none => (403, db)
  | some task =>
    if task.task.ownerId != userId then (403, db)
    else
      match getUserByEmail db req.email with
      | some u => shareTaskFinish db req.taskId req.permission u now
      | none =>
        let c := createUser db
          { firebaseUid := "placeholder_" ++ toString now ++ "_" ++ req.email,
            email := req.email, displayName := none } now
        shareTaskFinish c.1 req.taskId req.permission c.2 now

/-! ### Concrete fixtures used by witnesses and counterexamples -/

/-- Fixture: user with id 1. -/
def userA : User :=
  { id := 1, firebaseUid := "uidA", email := "a@example.com", displayName := none, createdAt := 0 }

/-- Fixture: user with id 2. -/
def userB : User :=
  { id := 2, firebaseUid := "uidB", email := "b@example.com", displayName := none, createdAt := 0 }

/-- Fixture: task 10 owned by user 1. -/
def taskT : Task :=
  { id := 10, title := "Write report", description := none, status := TaskStatus.todo,
    priority := TaskPriority.high, dueDate := none, createdAt := 1, updatedAt := 1, ownerId := 1 }

/-- Fixture: the empty patch (no field present). -/
def patch0 : UpdateTask :=
  { title := none, description := none, status := none, priority := none, dueDate := none }

/-- Fixture: a database with users 1 and 2 and task 10 owned by user 1. -/
def db0 : DB :=
  { users := [userA, userB], tasks := [taskT], taskShares := [],
    nextUserId := 3, nextTaskId := 11, nextShareId := 1 }

/-- Fixture: `db0` with task 10 shared to user 2 at view permission. -/
def db1 : DB :=
  { db0 with
    taskShares := [{ id := 1, taskId := 10, sharedWithId := 2,
                     permission := SharePermission.view, createdAt := 2 }]
    nextShareId := 2 }

/-! ### Claim theorems -/

/-- Helper: when a task with the id owned by the caller exists, `updateTask`
returns the updated row. -/
theorem updateTask_match (db : DB) (id userId : Nat) (u : UpdateTask) (now : Nat)
    (h : ∃ t ∈ db.tasks, t.id = id ∧ t.ownerId = userId) :
    ∃ t ∈ db.tasks, t.id = id ∧ t.ownerId = userId ∧
      (updateTask db id userId u now).2 = Except.ok (applyUpdate u now t) := by
  rcases h with ⟨t, ht, hid, hown⟩
  have hmem : t ∈ db.tasks.filter (fun t => t.id == id && t.ownerId == userId) := by
    simp [List.mem_filter, ht, hid, hown]
  cases hft : db.tasks.filter (fun t => t.id == id && t.ownerId == userId) with
  | nil => rw [hft] at hmem; simp at hmem
  | cons t0 rest =>
    have h0 : t0 ∈ db.tasks.filter (fun t => t.id == id && t.ownerId == userId) := by
      rw [hft]; exact List.mem_cons_self _ _
    have ht0 := List.mem_filter.mp h0
    have hids := ht0.2
    simp only [Bool.and_eq_true, beq_iff_eq] at hids
    refine ⟨t0, ht0.1, hids.1, hids.2, ?_⟩
    simp only [updateTask, hft]

/-- Helper: when no task with the id is owned by the caller, `updateTask`
throws the collapsed error and leaves the database untouched. -/
theorem updateTask_no_match (db : DB) (id userId : Nat) (u : UpdateTask) (now : Nat)
    (h : ∀ t ∈ db.tasks, ¬(t.id = id ∧ t.ownerId = userId)) :
    updateTask db id userId u now = (db, Except.error "Task not found or access denied") := by
  have hfil : db.tasks.filter (fun t => t.id == id && t.ownerId == userId) = [] := by
    rw [List.filter_eq_nil_iff]
    intro t ht
    simp only [Bool.and_eq_true, beq_iff_eq]
    exact h t ht
  have hpt : ∀ t ∈ db.tasks,
      (if t.id == id && t.ownerId == userId then applyUpdate u now t else t) = t := by
    intro t ht
    have hb : ¬((t.id == id && t.ownerId == userId) = true) := by
      simp only [Bool.and_eq_true, beq_iff_eq]
      exact h t ht
    simp [hb]
  have hmap : db.tasks.map
      (fun t => if t.id == id && t.ownerId == userId then applyUpdate u now t else t)
      = db.tasks :=
    (List.map_congr_left hpt).trans (List.map_id' _)
  simp only [updateTask, hfil, hmap]

/-- C1: `updateTask id userId patch` succeeds (returning the updated task)
exactly when a task with that id owned by `userId` exists; in every other
case — task absent, or owner different — it fails with the one error value
`"Task not found or access denied"`, which does not distinguish the two
cases, and the database is left unchanged. -/
theorem updateTask_owner_guard (db : DB) (id userId : Nat) (u : UpdateTask) (now : Nat) :
    ((∃ t ∈ db.tasks, t.id = id ∧ t.ownerId = userId) →
      ∃ t ∈ db.tasks, t.id = id ∧ t.ownerId = userId ∧
        (updateTask db id userId u now).2 = Except.ok (applyUpdate u now t)) ∧
    ((∀ t ∈ db.tasks, ¬(t.id = id ∧ t.ownerId = userId)) →
      updateTask db id userId u now = (db, Except.error "Task not found or access denied")) :=
  ⟨updateTask_match db id userId u now, updateTask_no_match db id userId u now⟩

/-- Witness for C1 at a concrete input: user 2 is not the owner of task 10,
so the update fails with the collapsed error and `db0` is unchanged. -/
theorem updateTask_owner_guard_witness :
    updateTask db0 10 2 patch0 5 = (db0, Except.error "Task not found or access denied") :=
  (updateTask_owner_guard db0 10 2 patch0 5).2 (by decide)

/-- Helper: the boolean returned by `deleteTask` is `true` exactly when a
task with the given id owned by the caller exists. -/
theorem deleteTask_flag (db : DB) (id userId : Nat) :
    (deleteTask db id userId).2 = true ↔ ∃ t ∈ db.tasks, t.id = id ∧ t.ownerId = userId := by
  simp only [deleteTask, Bool.not_eq_true', List.isEmpty_eq_false, ne_eq,
    List.filter_eq_nil_iff, Bool.and_eq_true, beq_iff_eq]
  constructor
  · intro h
    by_contra hc
    push_neg at hc
    exact h (fun t ht hb => hc t ht hb.1 hb.2)
  · rintro ⟨t, ht, hid, hown⟩ h
    exact h t ht ⟨hid, hown⟩

/-- C4: `deleteTask id userId` reports a removal exactly when a task with
that id owned by `userId` exists; every such task is removed; and when no
task with that id is owned by `userId` — in particular when a task with the
id exists but the caller is not its owner — the call returns `false` and
leaves the database exactly as it was. -/
theorem deleteTask_owner_guard (db : DB) (id userId : Nat) :
    ((deleteTask db id userId).2 = true ↔ ∃ t ∈ db.tasks, t.id = id ∧ t.ownerId = userId) ∧
    (∀ t ∈ db.tasks, t.id = id → t.ownerId = userId → t ∉ (deleteTask db id userId).1.tasks) ∧
    ((∀ t ∈ db.tasks, ¬(t.id = id ∧ t.ownerId = userId)) →
      deleteTask db id userId = (db, false)) := by
  refine ⟨deleteTask_flag db id userId, ?_, ?_⟩
  · intro t ht hid hown hmem
    have := (List.mem_filter.mp hmem).2
    simp only [Bool.not_eq_true', Bool.and_eq_false_iff, beq_eq_false_iff_ne] at this
    rcases this with h | h
    · exact h hid
    · exact h hown
  · intro h
    have hfil : db.tasks.filter (fun t => t.id == id && t.ownerId == userId) = [] := by
      rw [List.filter_eq_nil_iff]
      intro t ht
      simp only [Bool.and_eq_true, beq_iff_eq]
      exact h t ht
    have hkeep : db.tasks.filter (fun t => !(t.id == id && t.ownerId == userId)) = db.tasks := by
      rw [List.filter_eq_self]
      intro t ht
      simp only [Bool.not_eq_true', ← Bool.not_eq_true, Bool.and_eq_true, beq_iff_eq]
      exact fun hb => h t ht ⟨hb.1, hb.2⟩
    simp only [deleteTask, hfil, hkeep, List.any_nil, Bool.not_false, Bool.not_true,
      List.isEmpty_nil, List.filter_true]

/-- Witness for C4: the second-conjunct implication at a concrete input —
user 2 does not own task 10, so the delete is a no-op returning `false`. -/
theorem deleteTask_owner_guard_witness :
    deleteTask db0 10 2 = (db0, false) :=
  (deleteTask_owner_guard db0 10 2).2.2 (by decide)

/-- C5: when `deleteTask` actually removes a task, the cascade declared on
`taskShares.taskId` removes every share row referencing that task id:
afterwards `getTaskShares` on the id is empty and no surviving share row
references it. -/
theorem deleteTask_cascade (db : DB) (id userId : Nat)
    (h : (deleteTask db id userId).2 = true) :
    getTaskShares (deleteTask db id userId).1 id = [] ∧
    ∀ s ∈ (deleteTask db id userId).1.taskShares, s.taskId ≠ id := by
  rcases (deleteTask_flag db id userId).mp h with ⟨t0, ht0m, ht0id, ht0own⟩
  have ht0fil : t0 ∈ db.tasks.filter (fun t => t.id == id && t.ownerId == userId) :=
    List.mem_filter.mpr ⟨ht0m, by simp [ht0id, ht0own]⟩
  have hsur : ∀ s ∈ (deleteTask db id userId).1.taskShares, s.taskId ≠ id := by
    intro s hs
    have hsp := (List.mem_filter.mp (by simpa only [deleteTask] using hs)).2
    simp only [Bool.not_eq_true', List.any_eq_false] at hsp
    intro hsid
    have := hsp t0 ht0fil
    rw [ht0id, hsid] at this
    simp at this
  refine ⟨?_, hsur⟩
  simp only [getTaskShares, sharesJoin]
  have : (deleteTask db id userId).1.taskShares.filter (fun s => s.taskId == id) = [] := by
    rw [List.filter_eq_nil_iff]
    intro s hs
    simpa using hsur s hs
  rw [this]
  rfl

/-- Witness for C5: deleting task 10 (which has a share to user 2) removes
the share rows referencing it. -/
theorem deleteTask_cascade_witness :
    getTaskShares (deleteTask db1 10 1).1 10 = [] ∧
    ∀ s ∈ (deleteTask db1 10 1).1.taskShares, s.taskId ≠ 10 :=
  deleteTask_cascade db1 10 1 (by decide)

/-- C10: JS truthiness makes the empty search string behave exactly like an
absent one: `getTasksByUserId userId ""` applies no title/description filter
and coincides with the search-less call. -/
theorem getTasksByUserId_empty_search (db : DB) (userId : Nat) :
    getTasksByUserId db userId (some "") = getTasksByUserId db userId none := rfl

/-- Helper: membership in a mapped/sorted owner-scoped task list. -/
theorem mem_getTasksByUserId (db : DB) (userId : Nat) (search : Option String)
    (tw : TaskWithOwner) :
    tw ∈ getTasksByUserId db userId search ↔
      ∃ t ∈ db.tasks,
        (if searchTruthy search then
            t.ownerId == userId && matchesSearch (search.getD "") t
          else t.ownerId == userId) = true ∧
        tw = { task := t, owner := ownerJoin db t, shares := sharesJoin db t.id } := by
  unfold getTasksByUserId
  by_cases hs : searchTruthy search = true
  · simp only [hs, if_true, List.mem_map, mem_sortByKeyDesc, List.mem_filter]
    constructor
    · rintro ⟨t, ⟨ht, hp⟩, rfl⟩
      exact ⟨t, ht, hp, rfl⟩
    · rintro ⟨t, ht, hp, rfl⟩
      exact ⟨t, ⟨ht, hp⟩, rfl⟩
  · simp only [hs, if_false, Bool.not_eq_true] at hs ⊢
    simp only [hs, Bool.false_eq_true, if_false, List.mem_map, mem_sortByKeyDesc,
      List.mem_filter]
    constructor
    · rintro ⟨t, ⟨ht, hp⟩, rfl⟩
      exact ⟨t, ht, hp, rfl⟩
    · rintro ⟨t, ht, hp, rfl⟩
      exact ⟨t, ⟨ht, hp⟩, rfl⟩

/-- Helper: membership in the shared-to-user list. -/
theorem mem_getUserSharedTasks (db : DB) (userId : Nat) (tw : TaskWithOwner) :
    tw ∈ getUserSharedTasks db userId ↔
      ∃ s ∈ db.taskShares, s.sharedWithId = userId ∧
        tw = { task := (db.tasks.find? (fun t => t.id == s.taskId)).getD taskDefault,
               owner := ownerJoin db ((db.tasks.find? (fun t => t.id == s.taskId)).getD taskDefault),
               shares := [] } := by
  unfold getUserSharedTasks
  rw [mem_sortByKeyDesc, List.mem_map]
  constructor
  · rintro ⟨s, hsf, rfl⟩
    have hsp := List.mem_filter.mp hsf
    exact ⟨s, hsp.1, by simpa using hsp.2, rfl⟩
  · rintro ⟨s, hs, hsid, rfl⟩
    exact ⟨s, List.mem_filter.mpr ⟨hs, by simpa using hsid⟩, rfl⟩

/-- C9: the task-list route answers with the literal concatenation of the
owner-scoped list and the shared-to-user list — a union with no
de-duplication (counts add up for every predicate) — where the first
component contains exactly the caller's own (search-matching) tasks and the
second component exactly the tasks shared to the caller. -/
theorem listTasksRoute_union (db : DB) (userId : Nat) (search : Option String) :
    listTasksRoute db userId search =
      getTasksByUserId db userId search ++ getUserSharedTasks db userId ∧
    (∀ p : TaskWithOwner → Bool,
      (listTasksRoute db userId search).countP p =
        (getTasksByUserId db userId search).countP p +
          (getUserSharedTasks db userId).countP p) ∧
    (∀ tw ∈ getTasksByUserId db userId search, tw.task ∈ db.tasks ∧ tw.task.ownerId = userId) ∧
    (∀ tw ∈ getUserSharedTasks db userId, ∃ s ∈ db.taskShares, s.sharedWithId = userId ∧
        tw.task = (db.tasks.find? (fun t => t.id == s.taskId)).getD taskDefault) := by
  refine ⟨rfl, ?_, ?_, ?_⟩
  · intro p
    simp [listTasksRoute, List.countP_append]
  · intro tw htw
    rcases (mem_getTasksByUserId db userId search tw).mp htw with ⟨t, ht, hp, rfl⟩
    have howner : t.ownerId = userId := by
      by_cases hs : searchTruthy search = true
      · rw [if_pos hs] at hp
        simp only [Bool.and_eq_true, beq_iff_eq] at hp
        exact hp.1
      · rw [if_neg hs] at hp
        simpa using hp
    exact ⟨ht, howner⟩
  · intro tw htw
    rcases (mem_getUserSharedTasks db userId tw).mp htw with ⟨s, hs, hsid, rfl⟩
    exact ⟨s, hs, hsid, rfl⟩

/-- Helper: what `getTaskById` returning `some` implies about the row. -/
theorem getTaskById_inv (db : DB) (tid : Nat) (tw : TaskWithOwner)
    (h : getTaskById db tid = some tw) :
    db.tasks.find? (fun t => t.id == tid) = some tw.task ∧
    tw.task ∈ db.tasks ∧ tw.task.id = tid ∧
    tw.owner = ownerJoin db tw.task ∧ tw.shares = sharesJoin db tid := by
  unfold getTaskById at h
  cases hf : db.tasks.find? (fun t => t.id == tid) with
  | none => rw [hf] at h; exact absurd h (by simp)
  | some t =>
    rw [hf] at h
    have htid : t.id = tid := by
      have := List.find?_some hf
      simpa using this
    have hmem : t ∈ db.tasks := List.mem_of_find?_eq_some hf
    cases h
    exact ⟨rfl, hmem, htid, rfl, by rw [htid]⟩

/-- Helper: the share-list access test of the single-task route, expressed
against the share table. -/
theorem sharesJoin_any_iff (db : DB) (tid userId : Nat) :
    ((sharesJoin db tid).any (fun sh => sh.share.sharedWithId == userId)) = true ↔
      ∃ s ∈ db.taskShares, s.taskId = tid ∧ s.sharedWithId = userId := by
  unfold sharesJoin
  rw [List.any_eq_true]
  constructor
  · rintro ⟨sh, hmem, hp⟩
    rcases List.mem_map.mp hmem with ⟨s, hsf, rfl⟩
    have hsp := List.mem_filter.mp hsf
    exact ⟨s, hsp.1, by simpa using hsp.2, by simpa using hp⟩
  · rintro ⟨s, hs, hstid, hsu⟩
    exact ⟨_, List.mem_map.mpr ⟨s, List.mem_filter.mpr ⟨hs, by simpa using hstid⟩, rfl⟩,
      by simpa using hsu⟩

/-- C2: for an existing task, the single-task route answers 200 with the task
exactly when the caller owns it or appears as a recipient in its share list,
and 403 otherwise. -/
theorem getTaskRoute_access (db : DB) (userId tid : Nat) (tw : TaskWithOwner)
    (h : getTaskById db tid = some tw) :
    ((tw.task.ownerId = userId ∨ ∃ s ∈ db.taskShares, s.taskId = tid ∧ s.sharedWithId = userId) →
      getTaskRoute db userId tid = (200, some tw)) ∧
    (¬(tw.task.ownerId = userId ∨ ∃ s ∈ db.taskShares, s.taskId = tid ∧ s.sharedWithId = userId) →
      getTaskRoute db userId tid = (403, none)) := by
  obtain ⟨hf, hmem, htid, hown, hshares⟩ := getTaskById_inv db tid tw h
  have haccess : (tw.task.ownerId == userId ||
      tw.shares.any (fun sh => sh.share.sharedWithId == userId)) = true ↔
      (tw.task.ownerId = userId ∨ ∃ s ∈ db.taskShares, s.taskId = tid ∧ s.sharedWithId = userId) := by
    rw [hshares]
    simp only [Bool.or_eq_true, beq_iff_eq, sharesJoin_any_iff]
  constructor
  · intro hacc
    unfold getTaskRoute
    rw [h]
    simp only [haccess.mpr hacc, if_true]
  · intro hacc
    unfold getTaskRoute
    rw [h]
    have : (tw.task.ownerId == userId ||
        tw.shares.any (fun sh => sh.share.sharedWithId == userId)) = false := by
      rw [← Bool.not_eq_true]
      intro hb
      exact hacc (haccess.mp hb)
    simp only [this, Bool.false_eq_true, if_false]

/-- Fixture: the share row of `db1`, joined with user 2. -/
def shareB : ShareWithUser :=
  { share := { id := 1, taskId := 10, sharedWithId := 2,
               permission := SharePermission.view, createdAt := 2 }
    sharedWith := userB }

/-- Fixture: task 10 as returned by `getTaskById` from `db1`. -/
def twB : TaskWithOwner := { task := taskT, owner := userA, shares := [shareB] }

/-- Fixture: task 10 as returned by `getTaskById` from `db0`. -/
def twA : TaskWithOwner := { task := taskT, owner := userA, shares := [] }

/-- Witness for C2 at a concrete input: user 2 reads task 10 through its
share in `db1` (status 200), and in share-less `db0` is refused with 403. -/
theorem getTaskRoute_access_witness :
    getTaskRoute db1 2 10 = (200, some twB) ∧
    getTaskRoute db0 2 10 = (403, none) := by
  constructor
  · exact (getTaskRoute_access db1 2 10 twB (by decide)).1 (by decide)
  · exact (getTaskRoute_access db0 2 10 twA (by decide)).2 (by decide)

/-- C8 counterexample: in `db1`, task 10 is owned by user 1 and shared to
user 2 with view permission; user 2's PUT on it is answered with status 404,
not 403 — the route maps the storage layer's collapsed
"Task not found or access denied" error to 404. -/
theorem putTaskRoute_view_share_status :
    (∃ s ∈ db1.taskShares,
        s.taskId = 10 ∧ s.sharedWithId = 2 ∧ s.permission = SharePermission.view) ∧
    taskT.ownerId ≠ 2 ∧
    (putTaskRoute db1 2 10 patch0 5).1 = 404 ∧
    ¬((putTaskRoute db1 2 10 patch0 5).1 = 403) := by decide

/-- C8 (amended): when the caller owns no task with the requested id — in
particular a user holding only a view share — the PUT route rejects the
update with status 404 (the collapsed NotFoundOrForbidden outcome, not 403),
regardless of any share's permission field, and the database is unchanged. -/
theorem putTaskRoute_nonowner (db : DB) (userId tid : Nat) (upd : UpdateTask) (now : Nat)
    (h : ∀ t ∈ db.tasks, t.id = tid → t.ownerId ≠ userId) :
    putTaskRoute db userId tid upd now = (404, db) := by
  have hnm := updateTask_no_match db tid userId upd now
    (fun t ht hc => h t ht hc.1 hc.2)
  unfold putTaskRoute
  rw [hnm]

/-- Witness for C8's amended theorem: user 2 (view share on task 10) gets a
404 and `db1` is unchanged. -/
theorem putTaskRoute_nonowner_witness :
    putTaskRoute db1 2 10 patch0 5 = (404, db1) :=
  putTaskRoute_nonowner db1 2 10 patch0 5 (by decide)

/-- Witness for C9 at a concrete input: in `db1` the task shared to user 2
appears in the shared component, produced by its share row. -/
theorem listTasksRoute_union_witness :
    twA ∈ getUserSharedTasks db1 2 ∧
    ∃ s ∈ db1.taskShares, s.sharedWithId = 2 ∧
      twA.task = (db1.tasks.find? (fun t => t.id == s.taskId)).getD taskDefault :=
  ⟨by decide, (listTasksRoute_union db1 2 none).2.2.2 twA (by decide)⟩

/-! ### Owner immutability across update sequences (C6) -/

/-- One call of the update storage operation, as performed by the PUT route:
task id, caller, parsed patch, and the refresh timestamp. -/
structure UpdateCmd where
  id : Nat
  userId : Nat
  patch : UpdateTask
  now : Nat
deriving DecidableEq, Repr

/-- The database after one `updateTask` call (successful or not). -/
def updStep (db : DB) (c : UpdateCmd) : DB :=
  (updateTask db c.id c.userId c.patch c.now).1

/-- `applyUpdate` never touches the id column. -/
theorem applyUpdate_id (u : UpdateTask) (now : Nat) (t : Task) :
    (applyUpdate u now t).id = t.id := rfl

/-- `applyUpdate` never touches the owner column: `UpdateTask` has no
`ownerId` field (`updateTaskSchema` omits it). -/
theorem applyUpdate_ownerId (u : UpdateTask) (now : Nat) (t : Task) :
    (applyUpdate u now t).ownerId = t.ownerId := rfl

/-- Helper: the post-state of `updateTask` is the row-wise update, whether or
not any row matched. -/
theorem updateTask_fst (db : DB) (id userId : Nat) (u : UpdateTask) (now : Nat) :
    (updateTask db id userId u now).1 =
      { db with tasks := db.tasks.map (fun t =>
          if t.id == id && t.ownerId == userId then applyUpdate u now t else t) } := by
  unfold updateTask
  cases db.tasks.filter (fun t => t.id == id && t.ownerId == userId) <;> rfl

/-- Helper: one update step preserves "every task with id `tid` has owner
`ow`". -/
theorem updStep_owner_inv (db : DB) (c : UpdateCmd) (tid ow : Nat)
    (h : ∀ t ∈ db.tasks, t.id = tid → t.ownerId = ow) :
    ∀ t ∈ (updStep db c).tasks, t.id = tid → t.ownerId = ow := by
  intro t ht hid
  rw [updStep, updateTask_fst] at ht
  rcases List.mem_map.mp ht with ⟨t0, ht0, rfl⟩
  by_cases hb : (t0.id == c.id && t0.ownerId == c.userId) = true
  · rw [if_pos hb] at hid ⊢
    rw [applyUpdate_id] at hid
    rw [applyUpdate_ownerId]
    exact h t0 ht0 hid
  · rw [if_neg hb] at hid ⊢
    exact h t0 ht0 hid

/-- Helper: a whole sequence of update steps preserves the owner of every
task with a given id. -/
theorem foldl_owner_inv (cmds : List UpdateCmd) (db : DB) (tid ow : Nat)
    (h : ∀ t ∈ db.tasks, t.id = tid → t.ownerId = ow) :
    ∀ t ∈ (cmds.foldl updStep db).tasks, t.id = tid → t.ownerId = ow := by
  induction cmds generalizing db with
  | nil => exact h
  | cons c cs ih => exact ih (updStep db c) (updStep_owner_inv db c tid ow h)

/-- C6: the owner reference of a task never changes. For a task created by
`createTask` into a state whose existing ids are all below the serial
counter, any sequence of `updateTask` calls (any callers, any patches)
leaves `getTaskById` reporting the ownerId the task was created with —
no patch can alter the owning user reference. -/
theorem ownerId_immutable (db : DB) (ins : InsertTask) (now : Nat) (cmds : List UpdateCmd)
    (hfresh : ∀ t ∈ db.tasks, t.id < db.nextTaskId) (tw : TaskWithOwner)
    (h : getTaskById (cmds.foldl updStep (createTask db ins now).1)
          (createTask db ins now).2.id = some tw) :
    tw.task.ownerId = ins.ownerId := by
  have hinv0 : ∀ t ∈ (createTask db ins now).1.tasks,
      t.id = db.nextTaskId → t.ownerId = ins.ownerId := by
    intro t ht hid
    simp only [createTask, List.mem_append, List.mem_singleton] at ht
    rcases ht with ht | rfl
    · exact absurd hid (Nat.ne_of_lt (hfresh t ht))
    · rfl
  have hinv := foldl_owner_inv cmds (createTask db ins now).1 db.nextTaskId ins.ownerId hinv0
  obtain ⟨_, hmem, hid, _, _⟩ := getTaskById_inv _ _ _ h
  exact hinv tw.task hmem hid

/-- Fixture: insert payload for C6's witness, owned by user 1. -/
def insC : InsertTask :=
  { title := "draft", description := none, status := TaskStatus.todo,
    priority := TaskPriority.low, dueDate := none, ownerId := 1 }

/-- Fixture: an update command renaming task 11, issued by user 1. -/
def cmdC : UpdateCmd :=
  { id := 11, userId := 1,
    patch := { title := some "renamed", description := none, status := none,
               priority := none, dueDate := none },
    now := 9 }

/-- Fixture: task 11 after creation in `db0` at time 6 and `cmdC`. -/
def twC : TaskWithOwner :=
  { task := { id := 11, title := "renamed", description := none, status := TaskStatus.todo,
              priority := TaskPriority.low, dueDate := none, createdAt := 6,
              updatedAt := 9, ownerId := 1 }
    owner := userA
    shares := [] }

/-- Witness for C6 at a concrete input: create task 11 in `db0`, rename it,
and observe the owner reported by `getTaskById` is still user 1. -/
theorem ownerId_immutable_witness : twC.task.ownerId = insC.ownerId :=
  ownerId_immutable db0 insC 6 [cmdC] (by decide) twC (by decide)

/-! ### Duplicate-share rejection (C3) -/

/-- Helper: when some existing share row already links the task to the
recipient, the duplicate scan fires and `shareTaskFinish` answers 400
without touching the database. -/
theorem shareTaskFinish_dup (db1 : DB) (taskId : Nat) (perm : SharePermission)
    (u : User) (now : Nat)
    (h : ∃ s ∈ db1.taskShares, s.taskId = taskId ∧ s.sharedWithId = u.id) :
    shareTaskFinish db1 taskId perm u now = (400, db1) := by
  have hb : ((getTaskShares db1 taskId).any (fun sh => sh.share.sharedWithId == u.id))
      = true := (sharesJoin_any_iff db1 taskId u.id).mpr h
  simp only [shareTaskFinish, hb, if_true]

/-- Helper: a 201 from `shareTaskFinish` means exactly one share row linking
the task to the recipient was appended, and the task and user tables were
not touched. -/
theorem shareTaskFinish_201 (db1 : DB) (taskId : Nat) (perm : SharePermission)
    (u : User) (now : Nat) (db2 : DB)
    (h : shareTaskFinish db1 taskId perm u now = (201, db2)) :
    db2.tasks = db1.tasks ∧ db2.users = db1.users ∧
    ∃ s : TaskShare, db2.taskShares = db1.taskShares ++ [s] ∧
      s.taskId = taskId ∧ s.sharedWithId = u.id := by
  simp only [shareTaskFinish] at h
  by_cases hb : ((getTaskShares db1 taskId).any (fun sh => sh.share.sharedWithId == u.id))
      = true
  · rw [if_pos hb] at h
    exact absurd (congrArg Prod.fst h) (by simp)
  · rw [if_neg hb] at h
    have hdb : (shareTask db1
        { taskId := taskId, sharedWithId := u.id, permission := perm } now).1 = db2 :=
      congrArg Prod.snd h
    cases hdb
    exact ⟨rfl, rfl, ⟨_, rfl, rfl, rfl⟩⟩

/-- C3: sharing the same (task, recipient) pair a second time is rejected.
Whenever a share request is accepted (status 201), repeating the identical
request against the resulting state is answered with status 400 ("Task is
already shared with this user", the spec's Conflict-class outcome for a
duplicate share) and the database is returned unchanged — no new share row
is inserted. The duplicate is found by scanning the task's existing shares
before the insert (`shareTaskFinish`). -/
theorem share_second_time_conflict (db : DB) (userId : Nat) (req : ShareTaskRequest)
    (now now2 : Nat) (db' : DB)
    (h : shareTaskRoute db userId req now = (201, db')) :
    shareTaskRoute db' userId req now2 = (400, db') := by
  unfold shareTaskRoute at h
  cases hg : getTaskById db req.taskId with
  | none =>
    rw [hg] at h
    exact absurd (congrArg Prod.fst h) (by simp)
  | some tw =>
    rw [hg] at h
    dsimp only at h
    by_cases hown : (tw.task.ownerId != userId) = true
    · rw [if_pos hown] at h
      exact absurd (congrArg Prod.fst h) (by simp)
    · rw [if_neg hown] at h
      have hownEq : tw.task.ownerId = userId := by
        simpa using hown
      obtain ⟨hfind, hmem, htid, _, _⟩ := getTaskById_inv db req.taskId tw hg
      have hbne : (tw.task.ownerId != userId) = false := by
        simp [hownEq]
      cases hu : getUserByEmail db req.email with
      | some u =>
        rw [hu] at h
        obtain ⟨htasks, husers, s, hshares, hstid, hsuid⟩ :=
          shareTaskFinish_201 db req.taskId req.permission u now db' h
        have hfind' : db'.tasks.find? (fun t => t.id == req.taskId) = some tw.task := by
          rw [htasks]; exact hfind
        have hg' : getTaskById db' req.taskId =
            some { task := tw.task, owner := ownerJoin db' tw.task,
                   shares := sharesJoin db' req.taskId } := by
          simp only [getTaskById, hfind', htid]
        have hu' : getUserByEmail db' req.email = some u := by
          unfold getUserByEmail at hu ⊢
          rw [husers]
          exact hu
        simp only [shareTaskRoute, hg', hbne, Bool.false_eq_true, if_false, hu']
        exact shareTaskFinish_dup db' req.taskId req.permission u now2
          ⟨s, by rw [hshares]; simp, hstid, hsuid⟩
      | none =>
        rw [hu] at h
        simp only at h
        obtain ⟨htasks, husers, s, hshares, hstid, hsuid⟩ :=
          shareTaskFinish_201 _ req.taskId req.permission _ now db' h
        have hfind' : db'.tasks.find? (fun t => t.id == req.taskId) = some tw.task := by
          rw [htasks]; exact hfind
        have hg' : getTaskById db' req.taskId =
            some { task := tw.task, owner := ownerJoin db' tw.task,
                   shares := sharesJoin db' req.taskId } := by
          simp only [getTaskById, hfind', htid]
        have hu' : getUserByEmail db' req.email =
            some (createUser db
              { firebaseUid := "placeholder_" ++ toString now ++ "_" ++ req.email,
                email := req.email, displayName := none } now).2 := by
          unfold getUserByEmail at hu ⊢
          rw [husers]
          simp only [createUser]
          rw [List.find?_append, hu]
          simp
        simp only [shareTaskRoute, hg', hbne, Bool.false_eq_true, if_false, hu']
        exact shareTaskFinish_dup db' req.taskId req.permission _ now2
          ⟨s, by rw [hshares]; simp, hstid, hsuid⟩

/-- Witness for C3 at a concrete input: sharing task 10 with user B turns
`db0` into `db1` (201); the identical second request against `db1` is
answered 400 with `db1` unchanged. -/
theorem share_second_time_conflict_witness :
    shareTaskRoute db1 1
      { taskId := 10, email := "b@example.com", permission := SharePermission.view } 3
      = (400, db1) :=
  share_second_time_conflict db0 1
    { taskId := 10, email := "b@example.com", permission := SharePermission.view }
    2 3 db1 (by decide)

/-! ### The search filter versus literal containment (C7) -/

/-- Spec-side notion (from the spec's words "case-insensitively contains"):
does the needle occur at the start, comparing lowered characters? -/
def startsWithCI : List Char → List Char → Bool
  | [], _ => true
  | _ :: _, [] => false
  | a :: as, b :: bs => (a.toLower == b.toLower) && startsWithCI as bs

/-- Spec-side notion: does the needle occur anywhere in the haystack,
comparing lowered characters? -/
def hasSubstrCI : List Char → List Char → Bool
  | [], needle => needle.isEmpty
  | c :: cs, needle => startsWithCI needle (c :: cs) || hasSubstrCI cs needle

/-- Spec-side definition of "`s` case-insensitively contains `sub`", written
from the spec's wording, to be compared with the code's ILIKE filter. -/
def containsCI (s sub : String) : Bool :=
  hasSubstrCI s.data sub.data

/-- C7 counterexample: with the search term `"_"` — an ILIKE wildcard — the
owner-scoped search returns the task titled "Write report" although neither
its title nor its (absent) description case-insensitively contains `"_"`:
the filter interpolates the raw term into an ILIKE pattern, it does not test
literal containment. -/
theorem getTasksByUserId_search_counterexample :
    ((getTasksByUserId db0 1 (some "_")).map (fun tw => tw.task.title)
      = ["Write report"]) ∧
    containsCI "Write report" "_" = false ∧
    taskT.description = none := by decide

/-- C7 (amended): for a non-empty search term the owner-scoped search
returns exactly the tasks owned by `userId` whose title or description
matches the case-insensitive SQL LIKE pattern `%term%` (so `%` and `_` in
the term act as wildcards, backslash escapes; for terms free of these
metacharacters this is case-insensitive containment), and only tasks of that
owner; without a search term it returns all tasks owned by `userId`; in both
cases ordered newest-created first. -/
theorem getTasksByUserId_search (db : DB) (userId : Nat) (s : String) (hs : s ≠ "") :
    (∀ tw ∈ getTasksByUserId db userId (some s),
        tw.task ∈ db.tasks ∧ tw.task.ownerId = userId ∧ matchesSearch s tw.task = true) ∧
    (∀ t ∈ db.tasks, t.ownerId = userId → matchesSearch s t = true →
        ∃ tw ∈ getTasksByUserId db userId (some s), tw.task = t) ∧
    ((getTasksByUserId db userId (some s)).map (fun tw => tw.task.createdAt)).Pairwise
      (fun a b => b ≤ a) ∧
    (∀ tw ∈ getTasksByUserId db userId none,
        tw.task ∈ db.tasks ∧ tw.task.ownerId = userId) ∧
    (∀ t ∈ db.tasks, t.ownerId = userId →
        ∃ tw ∈ getTasksByUserId db userId none, tw.task = t) ∧
    ((getTasksByUserId db userId none).map (fun tw => tw.task.createdAt)).Pairwise
      (fun a b => b ≤ a) := by
  have hie : s.isEmpty = false := by
    rw [← Bool.not_eq_true]
    intro hb
    exact hs ((String.isEmpty_iff s).mp hb)
  have hst : searchTruthy (some s) = true := by
    simp [searchTruthy, hie]
  have hsorted : ∀ sch : Option String,
      ((getTasksByUserId db userId sch).map (fun tw => tw.task.createdAt)).Pairwise
        (fun a b => b ≤ a) := by
    intro sch
    unfold getTasksByUserId
    rw [List.map_map, List.pairwise_map]
    exact sorted_sortByKeyDesc _ _
  refine ⟨?_, ?_, hsorted (some s), ?_, ?_, hsorted none⟩
  · intro tw htw
    rcases (mem_getTasksByUserId db userId (some s) tw).mp htw with ⟨t, ht, hp, rfl⟩
    rw [if_pos hst] at hp
    simp only [Option.getD_some, Bool.and_eq_true, beq_iff_eq] at hp
    exact ⟨ht, hp.1, hp.2⟩
  · intro t ht ho hm
    refine ⟨{ task := t, owner := ownerJoin db t, shares := sharesJoin db t.id },
      (mem_getTasksByUserId db userId (some s) _).mpr ⟨t, ht, ?_, rfl⟩, rfl⟩
    rw [if_pos hst]
    simp [ho, hm]
  · intro tw htw
    rcases (mem_getTasksByUserId db userId none tw).mp htw with ⟨t, ht, hp, rfl⟩
    rw [if_neg (by simp [searchTruthy])] at hp
    simp only [beq_iff_eq] at hp
    exact ⟨ht, hp⟩
  · intro t ht ho
    refine ⟨{ task := t, owner := ownerJoin db t, shares := sharesJoin db t.id },
      (mem_getTasksByUserId db userId none _).mpr ⟨t, ht, ?_, rfl⟩, rfl⟩
    rw [if_neg (by simp [searchTruthy])]
    simp [ho]

/-- Witness for C7's amended theorem: searching `db0`'s owner 1 for "report"
finds task 10 (whose title ILIKE-matches "%report%"). -/
theorem getTasksByUserId_search_witness :
    ∃ tw ∈ getTasksByUserId db0 1 (some "report"), tw.task = taskT :=
  (getTasksByUserId_search db0 1 "report" (by decide)).2.1 taskT
    (by decide) (by decide) (by decide)

end TodoApp
